import Mathlib

/-!
Verification of the item-editor utility core (src/utils.ts and the utility
part of the main script). The code is JavaScript/TypeScript running in the
game host; numeric values that appear in the verified fragment are integers
or NaN, so JS numbers are embedded as an integer-or-NaN type `JInt` where
NaN matters (the Roman numeral codec and enchantment levels), and as exact
rationals where the code only does field arithmetic (vectors, coordinates,
with NaN from parseFloat handled explicitly as an Option).  Host-provided
objects (the enchantment type registry, the stackability and compatibility
predicates, the trigonometric functions) are passed as explicit parameters.
-/

namespace ItemEditor

/-- A JavaScript number restricted to the integer-or-NaN values that occur in
the Roman numeral codec and enchantment levels.  In JS every comparison with
NaN is false and every arithmetic operation on NaN returns NaN; `undefined`
(a failed object-key lookup) behaves the same way in `<`, `+` and `-`, so it
is also embedded as `nan`. -/
inductive JInt where
  | nan : JInt
  | int (n : Int) : JInt
deriving DecidableEq, Repr

/-- JS addition on integer-or-NaN values: NaN propagates. -/
def jadd : JInt → JInt → JInt
  | .int a, .int b => .int (a + b)
  | _, _ => .nan

/-- JS subtraction on integer-or-NaN values: NaN propagates. -/
def jsub : JInt → JInt → JInt
  | .int a, .int b => .int (a - b)
  | _, _ => .nan

/-- JS strict less-than: any comparison involving NaN is false. -/
def jlt : JInt → JInt → Bool
  | .int a, .int b => decide (a < b)
  | _, _ => false

/-- JS comparison `level > max` where `max` is a genuine integer coming from
the host registry; false when the left side is NaN. -/
def jgtInt : JInt → Int → Bool
  | .int a, b => decide (b < a)
  | .nan, _ => false

/-- JS strict equality on integer-or-NaN values: `NaN === NaN` is false. -/
def jstrictEq : JInt → JInt → Bool
  | .int a, .int b => decide (a = b)
  | _, _ => false

/-- Symbol values of `romanToNumber` in utils.ts:
`{ I: 1, V: 5, X: 10, L: 50, C: 100, D: 500, M: 1000 }`.
A key that is absent yields `undefined`, embedded as `none`. -/
def romanCharValue (c : Char) : Option Int :=
  if c = 'I' then some 1
  else if c = 'V' then some 5
  else if c = 'X' then some 10
  else if c = 'L' then some 50
  else if c = 'C' then some 100
  else if c = 'D' then some 500
  else if c = 'M' then some 1000
  else none

/-- One iteration of the `romanToNumber` loop.  The accumulator carries
`(num, prevValue)`.  `value < prevValue` is JS `<` (false on NaN or
undefined), and `num -= value` / `num += value` are JS arithmetic. -/
def romanStep (acc : JInt × JInt) (c : Char) : JInt × JInt :=
  let value : JInt := match romanCharValue c with
    | some v => .int v
    | none => .nan
  if jlt value acc.2 then (jsub acc.1 value, value) else (jadd acc.1 value, value)

/-- `romanToNumber` from utils.ts: scans the string right to left starting
from `num = 0, prevValue = 0`, subtracting a symbol value that is smaller
than the value to its right and adding otherwise. -/
def romanToNumber (s : String) : JInt :=
  (s.data.reverse.foldl romanStep (.int 0, .int 0)).1

/-- The while loop of `convertToRomanNumerals` for one key: while
`remaining >= key` append the symbol and subtract the key.  The loop is run
with fuel `m.toNat` (see `romanWhile`): every iteration requires
`1 <= k <= m` and decreases `m` by `k >= 1`, so `m.toNat` iterations always
suffice and the fueled function computes exactly the loop. -/
def romanWhileAux (sym : String) (k : Int) : Nat → Int → String × Int
  | 0, m => ("", m)
  | fuel + 1, m =>
    if 1 ≤ k ∧ k ≤ m then
      let r := romanWhileAux sym k fuel (m - k)
      (sym ++ r.1, r.2)
    else ("", m)

/-- The inner while loop of `convertToRomanNumerals`. -/
def romanWhile (sym : String) (k : Int) (m : Int) : String × Int :=
  romanWhileAux sym k m.toNat m

/-- The numeric keys of `convertToRomanNumerals` paired with their numerals,
already sorted in descending order as the source sorts them. -/
def romanKeys : List (Int × String) := [(10, "X"), (9, "IX"), (5, "V"), (4, "IV"), (1, "I")]

/-- `convertToRomanNumerals` from utils.ts.  For `num > 10` it returns the
decimal string unchanged; otherwise it greedily appends numerals largest key
first.  On NaN input both `num > 10` and every `remaining >= key` comparison
are false, so the result is the empty string. -/
def convertToRomanNumerals : JInt → String
  | .nan => ""
  | .int n =>
    if n > 10 then toString n
    else
      (romanKeys.foldl
        (fun acc ks =>
          let r := romanWhile ks.2 ks.1 acc.2
          (acc.1 ++ r.1, r.2))
        ("", n)).1

example : convertToRomanNumerals (.int 4) = "IV" := by decide
example : convertToRomanNumerals (.int 9) = "IX" := by decide
example : convertToRomanNumerals (.int 8) = "VIII" := by decide
example : convertToRomanNumerals (.int 11) = "11" := by decide
example : convertToRomanNumerals (.int 0) = "" := by decide
example : convertToRomanNumerals .nan = "" := by decide
example : romanToNumber "IX" = .int 9 := by decide
example : romanToNumber "VIII" = .int 8 := by decide
example : romanToNumber "v" = .nan := by decide

/-- C8: for every integer n in the interval 1..10, converting n to a Roman
numeral, decoding that numeral back, and converting the result again yields
the same numeral string as converting n once. -/
theorem roman_roundtrip (n : Int) (h1 : 1 ≤ n) (h2 : n ≤ 10) :
    convertToRomanNumerals (romanToNumber (convertToRomanNumerals (.int n)))
      = convertToRomanNumerals (.int n) := by
  interval_cases n <;> decide

/-- Witness for C8 at n = 9. -/
theorem roman_roundtrip_witness :
    convertToRomanNumerals (romanToNumber (convertToRomanNumerals (.int 9)))
      = convertToRomanNumerals (.int 9) :=
  roman_roundtrip 9 (by decide) (by decide)

/-- C10: for every integer n strictly greater than 10,
`convertToRomanNumerals` returns the decimal string representation of n
unchanged. -/
theorem roman_above_ten_decimal (n : Int) (h : 10 < n) :
    convertToRomanNumerals (.int n) = toString n := by
  simp [convertToRomanNumerals, h]

/-- Witness for C10 at n = 42. -/
theorem roman_above_ten_decimal_witness :
    convertToRomanNumerals (.int 42) = toString (42 : Int) :=
  roman_above_ten_decimal 42 (by decide)

/-- The Vector3 class of utils.ts.  Components are exact rationals; no NaN
arises in the verified vector operations (all inputs reaching them are
finite). -/
structure Vector3 where
  x : ℚ
  y : ℚ
  z : ℚ
deriving DecidableEq, Repr

/-- `Vector3.equals` added to the prototype in main.ts: componentwise
strict equality. -/
def Vector3.equals (v w : Vector3) : Bool :=
  decide (v.x = w.x) && decide (v.y = w.y) && decide (v.z = w.z)

/-- `Vector3.divide`: throws on a zero divisor, otherwise divides each
component. -/
def Vector3.divide (v : Vector3) (scalar : ℚ) : Except String Vector3 :=
  if scalar ≠ 0 then .ok ⟨v.x / scalar, v.y / scalar, v.z / scalar⟩
  else .error "Cannot divide by zero"

/-- `Vector3.magnitude`: `Math.sqrt(x ** 2 + y ** 2 + z ** 2)`.  The square
root is the host-provided `Math.sqrt`, passed as a parameter `sq`.  The
method body contains no throw, so in the Except embedding (chosen so that
failure claims about it are statable) it is always `ok`. -/
def Vector3.magnitude (sq : ℚ → ℚ) (v : Vector3) : Except String ℚ :=
  .ok (sq (v.x ^ 2 + v.y ^ 2 + v.z ^ 2))

/-- `Vector3.normalize`: computes the magnitude, divides by it when it is
nonzero, and throws on a zero magnitude. -/
def Vector3.normalize (sq : ℚ → ℚ) (v : Vector3) : Except String Vector3 :=
  match v.magnitude sq with
  | .ok mag => if mag ≠ 0 then v.divide mag else .error "Cannot normalize a zero vector"
  | .error e => .error e

/-- JS whitespace as it occurs in the parsed inputs (the common ASCII
whitespace characters matched by the regex class backslash-s). -/
def isSpaceJS (c : Char) : Bool :=
  c = ' ' || c = '\t' || c = '\n' || c = '\x0d'

/-- JS `String.prototype.trim` on a character list: drop leading and
trailing whitespace. -/
def jsTrimList (cs : List Char) : List Char :=
  ((cs.dropWhile isSpaceJS).reverse.dropWhile isSpaceJS).reverse

/-- JS `String.prototype.trim` on the ASCII whitespace above. -/
def jsTrim (s : String) : String :=
  String.mk (jsTrimList s.data)

/-- Helper for `splitWs`: accumulates the current token (reversed) while
scanning the remaining characters. -/
def splitWsAux : List Char → List Char → List (List Char)
  | cur, [] => if cur.isEmpty then [] else [cur.reverse]
  | cur, c :: cs =>
    if isSpaceJS c then
      if cur.isEmpty then splitWsAux [] cs else cur.reverse :: splitWsAux [] cs
    else splitWsAux (c :: cur) cs

/-- `input.trim().split(/\s+/)` as it is observed by `parseCoords`: the list
of maximal nonempty runs of non-whitespace characters of the trimmed
input. -/
def splitWs (s : String) : List String :=
  (splitWsAux [] (jsTrim s).data).map String.mk

/-- `token.startsWith(marker)` for a one-character marker. -/
def jsStartsWith (s : String) (c : Char) : Bool :=
  match s.data with
  | [] => false
  | d :: _ => d = c

/-- The digits of a decimal literal read as a natural number. -/
def digitsToNat (ds : List Char) : Nat :=
  ds.foldl (fun n c => n * 10 + (c.toNat - '0'.toNat)) 0

/-- Host `parseFloat` on finite decimal inputs: optional sign, an integer
part and an optional fractional part (at least one digit overall), an
optional exponent; trailing garbage is ignored; `none` is NaN when no
numeric prefix exists.  The special literal Infinity is not modeled; no
claim involves it. -/
def parseFloatQ (cs : List Char) : Option ℚ :=
  let signAndRest : ℚ × List Char := match cs with
    | '+' :: t => (1, t)
    | '-' :: t => (-1, t)
    | _ => (1, cs)
  let sign := signAndRest.1
  let cs1 := signAndRest.2
  let intPart := cs1.takeWhile Char.isDigit
  let cs2 := cs1.dropWhile Char.isDigit
  let fracAndRest : List Char × List Char := match cs2 with
    | '.' :: t => (t.takeWhile Char.isDigit, t.dropWhile Char.isDigit)
    | _ => ([], cs2)
  let fracPart := fracAndRest.1
  let cs3 := fracAndRest.2
  if intPart.isEmpty && fracPart.isEmpty then none
  else
    let mantissa : ℚ :=
      sign * ((digitsToNat intPart : ℚ) + (digitsToNat fracPart : ℚ) / (10 : ℚ) ^ fracPart.length)
    let exp : Int := match cs3 with
      | e :: t =>
        if e = 'e' || e = 'E' then
          let esignAndRest : Int × List Char := match t with
            | '+' :: u => (1, u)
            | '-' :: u => (-1, u)
            | _ => (1, t)
          let eDigits := esignAndRest.2.takeWhile Char.isDigit
          if eDigits.isEmpty then 0 else esignAndRest.1 * (digitsToNat eDigits : Int)
        else 0
      | [] => 0
    some (mantissa * (10 : ℚ) ^ exp)

example : parseFloatQ "-1".data = some (-1) := by simp [parseFloatQ, digitsToNat]
example : parseFloatQ "".data = none := by simp [parseFloatQ, digitsToNat]
example : parseFloatQ "abc".data = none := by simp [parseFloatQ, digitsToNat]
example : parseFloatQ "2.5".data = some (5 / 2) := by
  simp [parseFloatQ, digitsToNat]
  norm_num
example : parseFloatQ "1e2".data = some 100 := by
  simp [parseFloatQ, digitsToNat]
  norm_num

/-- The host math functions used by the coordinate parser: the constant pi
and the sine and cosine applied to the yaw converted to radians. -/
structure MathEnv where
  pi : ℚ
  sin : ℚ → ℚ
  cos : ℚ → ℚ

/-- `degreesToRadians` from utils.ts. -/
def degreesToRadians (env : MathEnv) (degrees : ℚ) : ℚ :=
  degrees * env.pi / 180

/-- The part of the host player state read by `parseCoords`: the location
and the yaw component of the rotation, in degrees. -/
structure PlayerState where
  locX : ℚ
  locY : ℚ
  locZ : ℚ
  yaw : ℚ

/-- The axis tag of `parseCoordinateWithDirection`. -/
inductive Axis where
  | x
  | y
  | z
deriving DecidableEq, Repr

/-- `parseCoordinateWithDirection` from utils.ts.  A tilde token adds the
parsed offset to the base, falling back to the bare base when the suffix
does not parse (`isNaN`); a caret token parses the suffix with a NaN-to-zero
fallback (`|| 0`) and rotates it by the yaw; a plain token must parse or
yields the per-token error string. -/
def parseCoordinateWithDirection (env : MathEnv) (player : PlayerState)
    (input : String) (base : ℚ) (axis : Axis) : Except String ℚ :=
  if jsStartsWith input '~' then
    match parseFloatQ (input.data.drop 1) with
    | none => .ok base
    | some relativeValue => .ok (base + relativeValue)
  else if jsStartsWith input '^' then
    let localValue : ℚ := (parseFloatQ (input.data.drop 1)).getD 0
    let yawRadians := degreesToRadians env player.yaw
    match axis with
    | .x => .ok (base + (-(env.sin yawRadians) * localValue))
    | .z => .ok (base + env.cos yawRadians * localValue)
    | .y => .ok (base + localValue)
  else
    match parseFloatQ input.data with
    | none => .error "Error: Invalid coordinate value."
    | some absoluteValue => .ok absoluteValue

/-- `parseCoords` from utils.ts: splits the trimmed input on whitespace,
requires exactly three tokens, rejects a mix of tilde and caret markers,
parses the three components, and returns the generic failure message when
any component parse fails. -/
def parseCoords (env : MathEnv) (player : PlayerState) (input : String) :
    Except String Vector3 :=
  match splitWs input with
  | [c0, c1, c2] =>
    let isRelative := jsStartsWith c0 '~' || jsStartsWith c1 '~' || jsStartsWith c2 '~'
    let isLocal := jsStartsWith c0 '^' || jsStartsWith c1 '^' || jsStartsWith c2 '^'
    if isRelative && isLocal then
      .error "Error: Cannot mix relative (~) and local (^) coordinates."
    else
      match parseCoordinateWithDirection env player c0 player.locX .x,
            parseCoordinateWithDirection env player c1 player.locY .y,
            parseCoordinateWithDirection env player c2 player.locZ .z with
      | .ok x, .ok y, .ok z => .ok ⟨x, y, z⟩
      | _, _, _ => .error "Error: One or more coordinates could not be parsed."
  | _ => .error "Error: Invalid coordinate input. Expected three components (x, y, z)."

example : splitWs "~ ~-1 ~" = ["~", "~-1", "~"] := by decide
example : splitWs "  1 2  " = ["1", "2"] := by decide

/-- A plain (unmarked) token whose numeric part fails to parse: no tilde
marker, no caret marker, and `parseFloat` yields NaN on it. -/
def absMalformed (t : String) : Prop :=
  jsStartsWith t '~' = false ∧ jsStartsWith t '^' = false ∧ parseFloatQ t.data = none

/-- An unmarked malformed token makes `parseCoordinateWithDirection` return
its per-token error string. -/
theorem parseCoordinateWithDirection_malformed (env : MathEnv) (player : PlayerState)
    (t : String) (base : ℚ) (axis : Axis) (h : absMalformed t) :
    parseCoordinateWithDirection env player t base axis
      = .error "Error: Invalid coordinate value." := by
  obtain ⟨h1, h2, h3⟩ := h
  simp [parseCoordinateWithDirection, h1, h2, h3]

/-- C5 counterexample: the magnitude of the all-zero vector does not fail:
for the host square root function (instantiated here with the identity,
which agrees with a genuine square root at 0) the method returns `ok 0`
rather than an error. -/
theorem magnitude_zero_vector_counterexample :
    Vector3.magnitude id ⟨0, 0, 0⟩ = Except.ok 0 := by
  simp [Vector3.magnitude]

/-- C5 (amended): `divide` by zero throws, `normalize` of the all-zero
vector throws (the host square root sends 0 to 0), but `magnitude` contains
no failure path at all: it returns `ok` on every vector, in particular on
the zero-length one. -/
theorem vector_zero_input_behavior :
    (∀ v : Vector3, v.divide 0 = .error "Cannot divide by zero")
    ∧ (∀ sq : ℚ → ℚ, sq 0 = 0 →
        Vector3.normalize sq ⟨0, 0, 0⟩ = .error "Cannot normalize a zero vector")
    ∧ (∀ (sq : ℚ → ℚ) (v : Vector3), ∃ r, v.magnitude sq = .ok r) := by
  refine ⟨fun v => ?_, fun sq h => ?_, fun sq v => ⟨_, rfl⟩⟩
  · simp [Vector3.divide]
  · simp [Vector3.normalize, Vector3.magnitude, h]

/-- Witness for C5 (amended) at concrete inputs, with the host square root
instantiated by the identity function (which sends 0 to 0). -/
theorem vector_zero_input_behavior_witness :
    (Vector3.mk 1 2 2).divide 0 = .error "Cannot divide by zero"
    ∧ Vector3.normalize id ⟨0, 0, 0⟩ = .error "Cannot normalize a zero vector"
    ∧ ∃ r, (Vector3.mk 1 2 2).magnitude id = .ok r :=
  ⟨vector_zero_input_behavior.1 ⟨1, 2, 2⟩,
   vector_zero_input_behavior.2.1 id rfl,
   vector_zero_input_behavior.2.2 id ⟨1, 2, 2⟩⟩

/-- C7: the three coordinate-parser examples.  Relative input from origin
(10,64,10) yields (10,63,10) for every yaw; local input at yaw 0 yields the
origin plus (0,0,1) whenever the host trig functions satisfy sin 0 = 0 and
cos 0 = 1; and any three-token input containing a tilde token and a caret
token, in whatever positions, is rejected with the mix error, whatever the
tokens contain. -/
theorem parseCoords_examples :
    (∀ (env : MathEnv) (yaw : ℚ),
      parseCoords env ⟨10, 64, 10, yaw⟩ "~ ~-1 ~" = .ok ⟨10, 63, 10⟩)
    ∧ (∀ (env : MathEnv) (ox oy oz : ℚ), env.sin 0 = 0 → env.cos 0 = 1 →
        parseCoords env ⟨ox, oy, oz, 0⟩ "^ ^ ^1" = .ok ⟨ox, oy, oz + 1⟩)
    ∧ (∀ (env : MathEnv) (p : PlayerState) (input a b c : String),
        splitWs input = [a, b, c] →
        (jsStartsWith a '~' || jsStartsWith b '~' || jsStartsWith c '~') = true →
        (jsStartsWith a '^' || jsStartsWith b '^' || jsStartsWith c '^') = true →
        parseCoords env p input
          = .error "Error: Cannot mix relative (~) and local (^) coordinates.") := by
  refine ⟨fun env yaw => ?_, fun env ox oy oz hs hc => ?_, fun env p input a b c hsplit ha hb => ?_⟩
  · show parseCoords env ⟨10, 64, 10, yaw⟩ "~ ~-1 ~" = .ok ⟨10, 63, 10⟩
    have h : splitWs "~ ~-1 ~" = ["~", "~-1", "~"] := by decide
    simp [parseCoords, h, parseCoordinateWithDirection, jsStartsWith, parseFloatQ, digitsToNat]
    norm_num
  · have h : splitWs "^ ^ ^1" = ["^", "^", "^1"] := by decide
    have hrad : degreesToRadians env 0 = 0 := by simp [degreesToRadians]
    simp [parseCoords, h, parseCoordinateWithDirection, jsStartsWith, parseFloatQ, digitsToNat,
      hrad, hs, hc]
  · simp only [parseCoords, hsplit]
    simp [ha, hb]

/-- Witness for C7 with a concrete host trig environment and concrete
inputs. -/
theorem parseCoords_examples_witness :
    (parseCoords ⟨355 / 113, fun _ => 0, fun _ => 1⟩ ⟨10, 64, 10, 0⟩ "~ ~-1 ~"
      = .ok ⟨10, 63, 10⟩)
    ∧ (parseCoords ⟨355 / 113, fun _ => 0, fun _ => 1⟩ ⟨10, 64, 10, 0⟩ "^ ^ ^1"
      = .ok ⟨10, 64, 10 + 1⟩)
    ∧ (parseCoords ⟨355 / 113, fun _ => 0, fun _ => 1⟩ ⟨10, 64, 10, 0⟩ "~1 ^1 ~1"
      = .error "Error: Cannot mix relative (~) and local (^) coordinates.")
    ∧ (parseCoords ⟨355 / 113, fun _ => 0, fun _ => 1⟩ ⟨10, 64, 10, 0⟩ "^1 ~1 5"
      = .error "Error: Cannot mix relative (~) and local (^) coordinates.") :=
  ⟨parseCoords_examples.1 _ 0,
   parseCoords_examples.2.1 _ 10 64 10 rfl rfl,
   parseCoords_examples.2.2 _ _ "~1 ^1 ~1" "~1" "^1" "~1" (by decide) rfl rfl,
   parseCoords_examples.2.2 _ _ "^1 ~1 5" "^1" "~1" "5" (by decide) rfl rfl⟩

/-- C4 counterexample: the token `~abc` has a numeric part that cannot be
parsed, yet `parseCoords` on `~abc 1 2` does not return the generic
parse-failure error: the malformed suffix is silently treated as a zero
offset and a full vector is returned. -/
theorem parseCoords_malformed_counterexample :
    parseCoords ⟨355 / 113, fun _ => 0, fun _ => 1⟩ ⟨0, 0, 0, 0⟩ "~abc 1 2"
      = Except.ok ⟨0, 1, 2⟩ := by
  have h : splitWs "~abc 1 2" = ["~abc", "1", "2"] := by decide
  simp [parseCoords, h, parseCoordinateWithDirection, jsStartsWith, parseFloatQ, digitsToNat]

/-- C4 (amended): when no tilde/caret mix is present, a three-token input
containing an unmarked token whose numeric part cannot be parsed yields the
single generic parse-failure error and no partial vector; tokens prefixed
with a tilde or caret marker never fail to parse (an unparsable suffix is
treated as a zero offset instead). -/
theorem parseCoords_malformed_generic_error :
    ∀ (env : MathEnv) (p : PlayerState) (input a b c : String),
      splitWs input = [a, b, c] →
      (((jsStartsWith a '~' || jsStartsWith b '~' || jsStartsWith c '~') &&
        (jsStartsWith a '^' || jsStartsWith b '^' || jsStartsWith c '^')) = false) →
      (absMalformed a ∨ absMalformed b ∨ absMalformed c) →
      parseCoords env p input
        = .error "Error: One or more coordinates could not be parsed." := by
  intro env p input a b c hsplit hmix hmal
  simp only [parseCoords, hsplit, hmix, Bool.false_eq_true, if_false]
  rcases hmal with h | h | h
  · rw [parseCoordinateWithDirection_malformed env p a p.locX .x h]
  · rw [parseCoordinateWithDirection_malformed env p b p.locY .y h]
    cases parseCoordinateWithDirection env p a p.locX .x <;> rfl
  · rw [parseCoordinateWithDirection_malformed env p c p.locZ .z h]
    cases parseCoordinateWithDirection env p a p.locX .x <;>
      cases parseCoordinateWithDirection env p b p.locY .y <;> rfl

/-- Witness for C4 (amended) on the concrete input `abc 1 2`. -/
theorem parseCoords_malformed_generic_error_witness :
    parseCoords ⟨355 / 113, fun _ => 0, fun _ => 1⟩ ⟨0, 0, 0, 0⟩ "abc 1 2"
      = .error "Error: One or more coordinates could not be parsed." :=
  parseCoords_malformed_generic_error _ _ "abc 1 2" "abc" "1" "2" (by decide) (by decide)
    (Or.inl ⟨by decide, by decide, by decide⟩)

/-- The cooldown component fields compared by `compareCooldownComponents`. -/
structure ItemCooldownComponent where
  cooldownCategory : String
  cooldownTicks : Int
deriving DecidableEq, Repr

/-- The durability component fields compared by
`compareDurabilityComponents`. -/
structure ItemDurabilityComponent where
  maxDurability : Int
  damage : Int
deriving DecidableEq, Repr

/-- The food component fields compared by `compareFoodComponents`. -/
structure ItemFoodComponent where
  canAlwaysEat : Bool
  nutrition : Int
  saturationModifier : ℚ
  usingConvertsTo : String
deriving DecidableEq, Repr

/-- An enchantment type from the host registry: its identifier and declared
maximum level.  The registry hands out one canonical object per identifier,
so the reference equality used by the source coincides with structural
equality here. -/
structure EnchantmentType where
  id : String
  maxLevel : Int
deriving DecidableEq, Repr

/-- An enchantment descriptor: a type and a level.  The level is a JS number
(it can be NaN when the level text decodes through non-Roman characters). -/
structure Enchantment where
  type : EnchantmentType
  level : JInt
deriving DecidableEq, Repr

/-- A dynamic property value as the host API supplies it: boolean, number,
string, Vector3 object, or undefined.  Number-valued properties in this
model are finite. -/
inductive DynValue where
  | bool (b : Bool)
  | num (q : ℚ)
  | str (s : String)
  | vec (v : Vector3)
  | undefinedValue
deriving DecidableEq, Repr

/-- JS `typeof` on a dynamic property value. -/
def DynValue.jsTypeof : DynValue → String
  | .bool _ => "boolean"
  | .num _ => "number"
  | .str _ => "string"
  | .vec _ => "object"
  | .undefinedValue => "undefined"

/-- The snapshot of an ItemStack read by `isSameItem` and
`parseEnchantments`: plain fields, the four compared components (absent
component = `none`), and the dynamic property store (`getDynamicPropertyIds`
returns the keys in order, `getDynamicProperty` looks a key up). -/
structure ItemStack where
  typeId : String
  nameTag : Option String
  amount : Int
  isStackable : Bool
  keepOnDeath : Bool
  lockMode : String
  tags : List String
  lore : List String
  canDestroy : List String
  canPlaceOn : List String
  cooldown : Option ItemCooldownComponent
  durability : Option ItemDurabilityComponent
  food : Option ItemFoodComponent
  enchantable : Option (List Enchantment)
  dynamicProps : List (String × DynValue)
deriving DecidableEq, Repr

/-- `getDynamicPropertyIds`. -/
def ItemStack.getDynamicPropertyIds (item : ItemStack) : List String :=
  item.dynamicProps.map Prod.fst

/-- `getDynamicProperty`: the stored value, or undefined when the key is
absent. -/
def ItemStack.getDynamicProperty (item : ItemStack) (id : String) : DynValue :=
  match item.dynamicProps.find? (fun p => p.1 = id) with
  | some p => p.2
  | none => .undefinedValue

/-- `compareComponent` from main.ts: presence must agree, and when both
items carry the component the component comparator decides. -/
def compareComponent {α : Type} (c1 c2 : Option α) (f : α → α → Bool) : Bool :=
  match c1, c2 with
  | some a, some b => f a b
  | none, none => true
  | _, _ => false

/-- `compareCooldownComponents`. -/
def compareCooldownComponents (c1 c2 : ItemCooldownComponent) : Bool :=
  decide (c1.cooldownCategory = c2.cooldownCategory) && decide (c1.cooldownTicks = c2.cooldownTicks)

/-- `compareDurabilityComponents`. -/
def compareDurabilityComponents (c1 c2 : ItemDurabilityComponent) : Bool :=
  decide (c1.maxDurability = c2.maxDurability) && decide (c1.damage = c2.damage)

/-- `compareFoodComponents`. -/
def compareFoodComponents (c1 c2 : ItemFoodComponent) : Bool :=
  decide (c1.canAlwaysEat = c2.canAlwaysEat) && decide (c1.nutrition = c2.nutrition)
    && decide (c1.saturationModifier = c2.saturationModifier)
    && decide (c1.usingConvertsTo = c2.usingConvertsTo)

/-- The indexed loop of `compareEnchantableComponents` over two lists of
equal length: the type references and the levels must agree positionally
(JS strict equality on the level, so a NaN level never equals itself). -/
def compareEnchLoop : List Enchantment → List Enchantment → Bool
  | [], _ => true
  | _, [] => true
  | e1 :: t1, e2 :: t2 =>
    if decide (e1.type ≠ e2.type) || !jstrictEq e1.level e2.level then false
    else compareEnchLoop t1 t2

/-- `compareEnchantableComponents`: equal length, then the positional
loop. -/
def compareEnchantableComponents (l1 l2 : List Enchantment) : Bool :=
  if l1.length ≠ l2.length then false else compareEnchLoop l1 l2

/-- `compareComponents` from main.ts. -/
def compareComponents (item1 item2 : ItemStack) : Bool :=
  compareComponent item1.cooldown item2.cooldown compareCooldownComponents
    && compareComponent item1.durability item2.durability compareDurabilityComponents
    && compareComponent item1.food item2.food compareFoodComponents
    && compareComponent item1.enchantable item2.enchantable compareEnchantableComponents

/-- `arraysEqual` from main.ts: equal length and positionally equal, which
is list equality. -/
def arraysEqual (arr1 arr2 : List String) : Bool :=
  decide (arr1 = arr2)

/-- The per-property comparison inside `compareDynamicProperties`: typeof
must agree, Vector3 values compare via `equals`, anything else via JS strict
equality. -/
def dynPropEq (p1 p2 : DynValue) : Bool :=
  if p1.jsTypeof ≠ p2.jsTypeof then false
  else
    match p1, p2 with
    | .vec v, .vec w => v.equals w
    | q1, q2 => decide (q1 = q2)

/-- `compareDynamicProperties` from main.ts: the id arrays must be equal
positionally, then each stored value must compare equal. -/
def compareDynamicProperties (item1 item2 : ItemStack) : Bool :=
  if !arraysEqual item1.getDynamicPropertyIds item2.getDynamicPropertyIds then false
  else item1.getDynamicPropertyIds.all
    (fun id => dynPropEq (item1.getDynamicProperty id) (item2.getDynamicProperty id))

/-- `isSameItem` from main.ts.  `stackWith` is the host predicate
`item1.isStackableWith(item2)`. -/
def isSameItem (stackWith : ItemStack → ItemStack → Bool) (item1 item2 : ItemStack) : Bool :=
  if item1.typeId ≠ item2.typeId then false
  else if item1.nameTag ≠ item2.nameTag then false
  else if item1.amount ≠ item2.amount then false
  else if item1.isStackable && stackWith item1 item2 then false
  else if item1.tags.length ≠ item2.tags.length
      || !(item1.tags.all (fun tag => item2.tags.contains tag)) then false
  else if item1.lore.length ≠ item2.lore.length
      || !(item1.lore.all (fun lore => item2.lore.contains lore)) then false
  else if item1.canDestroy.length ≠ item2.canDestroy.length
      || !(item1.canDestroy.all (fun block => item2.canDestroy.contains block)) then false
  else if item1.canPlaceOn.length ≠ item2.canPlaceOn.length
      || !(item1.canPlaceOn.all (fun block => item2.canPlaceOn.contains block)) then false
  else if item1.keepOnDeath ≠ item2.keepOnDeath then false
  else if item1.lockMode ≠ item2.lockMode then false
  else if !(compareComponents item1 item2) then false
  else if !(compareDynamicProperties item1 item2) then false
  else true

/-- A plain non-stackable item used by the concrete counterexamples. -/
def loreItemA : ItemStack :=
  { typeId := "minecraft:stone"
    nameTag := none
    amount := 1
    isStackable := false
    keepOnDeath := false
    lockMode := "none"
    tags := []
    lore := ["first line", "second line"]
    canDestroy := []
    canPlaceOn := []
    cooldown := none
    durability := none
    food := none
    enchantable := none
    dynamicProps := [] }

/-- The same item with the two lore lines in the opposite order. -/
def loreItemB : ItemStack :=
  { loreItemA with lore := ["second line", "first line"] }

/-- C1 counterexample: two item values that differ only in the order of
their lore lines are judged the SAME by `isSameItem` (the lore check is a
length-plus-membership check, not positional), refuting the claim that it
returns false on them. -/
theorem isSameItem_lore_order_counterexample :
    loreItemB = { loreItemA with lore := ["second line", "first line"] }
    ∧ loreItemA.lore = ["first line", "second line"]
    ∧ isSameItem (fun _ _ => false) loreItemA loreItemB = true := by
  refine ⟨rfl, rfl, ?_⟩
  decide

/-- The positional enchantment loop is reflexive as long as no level is NaN
(a NaN level fails JS strict equality with itself). -/
theorem compareEnchLoop_refl (l : List Enchantment) (h : ∀ e ∈ l, e.level ≠ JInt.nan) :
    compareEnchLoop l l = true := by
  induction l with
  | nil => rfl
  | cons e t ih =>
    have he : e.level ≠ JInt.nan := h e (List.mem_cons_self e t)
    have hs : jstrictEq e.level e.level = true := by
      cases hl : e.level with
      | nan => exact absurd hl he
      | int k => simp [jstrictEq]
    simp [compareEnchLoop, hs]
    exact ih (fun x hx => h x (List.mem_cons_of_mem e hx))

/-- The component comparison between an item and the same item with its lore
replaced is true whenever no stored enchantment level is NaN. -/
theorem compareComponents_lore_update (a : ItemStack) (l2 : List String)
    (h : ∀ e ∈ a.enchantable.getD [], e.level ≠ JInt.nan) :
    compareComponents a { a with lore := l2 } = true := by
  have hc : compareComponent a.cooldown a.cooldown compareCooldownComponents = true := by
    cases a.cooldown <;> simp [compareComponent, compareCooldownComponents]
  have hd : compareComponent a.durability a.durability compareDurabilityComponents = true := by
    cases a.durability <;> simp [compareComponent, compareDurabilityComponents]
  have hf : compareComponent a.food a.food compareFoodComponents = true := by
    cases a.food <;> simp [compareComponent, compareFoodComponents]
  have he : compareComponent a.enchantable a.enchantable compareEnchantableComponents = true := by
    cases hl : a.enchantable with
    | none => simp [compareComponent]
    | some l =>
      have : ∀ e ∈ l, e.level ≠ JInt.nan := by
        intro e hel
        exact h e (by simp [hl, hel])
      simp [compareComponent, compareEnchantableComponents]
      exact compareEnchLoop_refl l this
  simp [compareComponents, hc, hd, hf, he]

/-- The per-property dynamic comparison is reflexive. -/
theorem dynPropEq_refl (p : DynValue) : dynPropEq p p = true := by
  cases p <;> simp [dynPropEq, Vector3.equals]

/-- The dynamic property comparison between an item and the same item with
its lore replaced is true. -/
theorem compareDynamicProperties_lore_update (a : ItemStack) (l2 : List String) :
    compareDynamicProperties a { a with lore := l2 } = true := by
  simp [compareDynamicProperties, arraysEqual, ItemStack.getDynamicPropertyIds,
    ItemStack.getDynamicProperty, List.all_eq_true]
  intro id v hm
  exact dynPropEq_refl _

/-- Every element of a list is contained in it, so the membership half of
the set-style checks of `isSameItem` holds reflexively. -/
theorem all_contains_self (l : List String) : l.all (fun x => l.contains x) = true := by
  simp [List.all_eq_true]

/-- C1 (amended): lore lines, like the destroy and place-on block sets,
compare as unordered collections (equal length plus containment), not
positionally; two item values that differ only in the order of their lore
lines are judged the SAME by `isSameItem`, provided the stackability gate
does not fire and no stored enchantment level is NaN.  (The enchantment
lists themselves do compare positionally, in `compareEnchLoop`.) -/
theorem isSameItem_lore_set_comparison (sw : ItemStack → ItemStack → Bool)
    (a : ItemStack) (l2 : List String)
    (hlen : a.lore.length = l2.length)
    (hmem : ∀ s ∈ a.lore, s ∈ l2)
    (hsw : (a.isStackable && sw a { a with lore := l2 }) = false)
    (hnan : ∀ e ∈ a.enchantable.getD [], e.level ≠ JInt.nan) :
    isSameItem sw a { a with lore := l2 } = true := by
  have hcomp := compareComponents_lore_update a l2 hnan
  have hdyn := compareDynamicProperties_lore_update a l2
  have hloreall : a.lore.all (fun lore => l2.contains lore) = true := by
    simp [List.all_eq_true]
    exact hmem
  simp [isSameItem, hsw, hcomp, hdyn, hlen, hloreall, all_contains_self]
  exact hmem

/-- Witness for C1 (amended) at the concrete lore-permuted pair. -/
theorem isSameItem_lore_set_comparison_witness :
    isSameItem (fun _ _ => false) loreItemA { loreItemA with lore := ["second line", "first line"] }
      = true :=
  isSameItem_lore_set_comparison (fun _ _ => false) loreItemA ["second line", "first line"]
    (by decide) (by decide) (by decide) (by decide)

/-- C2: whenever the first item is stackable and the host stackability
predicate reports the pair as stackable, `isSameItem` returns false — even
on two copies of the very same item value, so the comparator is not
reflexive on stackable items. -/
theorem isSameItem_stackable_not_reflexive :
    (∀ (sw : ItemStack → ItemStack → Bool) (a b : ItemStack),
      a.isStackable = true → sw a b = true → isSameItem sw a b = false)
    ∧ (∀ (sw : ItemStack → ItemStack → Bool) (a : ItemStack),
      a.isStackable = true → sw a a = true → isSameItem sw a a = false) := by
  have main : ∀ (sw : ItemStack → ItemStack → Bool) (a b : ItemStack),
      a.isStackable = true → sw a b = true → isSameItem sw a b = false := by
    intro sw a b h1 h2
    simp [isSameItem, h1, h2]
  exact ⟨main, fun sw a h1 h2 => main sw a a h1 h2⟩

/-- Witness for C2: a concrete stackable item compared with itself under a
host predicate that reports it stackable with itself. -/
theorem isSameItem_stackable_not_reflexive_witness :
    isSameItem (fun _ _ => true) { loreItemA with isStackable := true }
      { loreItemA with isStackable := true } = false :=
  isSameItem_stackable_not_reflexive.2 (fun _ _ => true)
    { loreItemA with isStackable := true } rfl rfl

/-- An ASCII word character, the regex class backslash-w without the unicode
flag. -/
def isWordChar (c : Char) : Bool :=
  c.isAlphanum || c = '_'

/-- A character the lazy name group of the entry regex may consume (word or
whitespace). -/
def isEntryChar (c : Char) : Bool :=
  isWordChar c || isSpaceJS c

/-- Matches the anchored tail of the entry regex after the name group:
either the end of the entry (no level text) or one-or-more whitespace
characters followed by one-or-more word characters reaching the end (the
level text).  Returns `none` when the tail does not match, `some none` for
a missing level, `some (some w)` for level text `w`. -/
def tailMatch : List Char → Option (Option (List Char))
  | [] => some none
  | c :: cs =>
    if isSpaceJS c then
      if ((c :: cs).dropWhile isSpaceJS).isEmpty then none
      else if ((c :: cs).dropWhile isSpaceJS).all isWordChar then
        some (some ((c :: cs).dropWhile isSpaceJS))
      else none
    else none

/-- The lazy matching loop of the entry regex: with the (reversed) name
consumed so far, first try to finish at the current position (shortest name
first, as the lazy quantifier does), otherwise consume one more name
character. -/
def matchGo (nameRev : List Char) : List Char → Option (List Char × Option (List Char))
  | [] => if nameRev.isEmpty then none else some (nameRev.reverse, none)
  | c :: cs =>
    match tailMatch (c :: cs) with
    | some lvl =>
      if nameRev.isEmpty then
        if isEntryChar c then matchGo (c :: nameRev) cs else none
      else some (nameRev.reverse, lvl)
    | none =>
      if isEntryChar c then matchGo (c :: nameRev) cs else none

/-- The entry regex of `parseEnchantments`: a lazy name of word and space
characters, then an optional whitespace-separated word as the level text,
anchored at both ends. -/
def matchEntry (entry : String) : Option (String × Option String) :=
  match matchGo [] entry.data with
  | some (name, lvl) => some (String.mk name, lvl.map String.mk)
  | none => none

example : matchEntry "sharpness v" = some ("sharpness", some "v") := by decide
example : matchEntry "fire protection iv" = some ("fire protection", some "iv") := by decide
example : matchEntry "sharpness" = some ("sharpness", none) := by decide
example : matchEntry "sharp!ness" = none := by decide
example : matchEntry "" = none := by decide

/-- `name.trim().toLowerCase().replace(/ /g, underscore)` from
`parseEnchantments`. -/
def formatName (name : String) : String :=
  String.mk ((((jsTrim name).data.map Char.toLower)).map (fun c => if c = ' ' then '_' else c))

example : formatName "Fire Protection" = "fire_protection" := by decide

/-- Splitting on commas, as `enchantmentsStr.split(',')` does (empty pieces
included). -/
def splitCommaAux : List Char → List Char → List (List Char)
  | cur, [] => [cur.reverse]
  | cur, c :: cs =>
    if c = ',' then cur.reverse :: splitCommaAux [] cs else splitCommaAux (c :: cur) cs

/-- The comma-separated, individually trimmed entry list of
`parseEnchantments`. -/
def enchantmentEntries (s : String) : List String :=
  (splitCommaAux [] s.data).map (fun cs => String.mk (jsTrimList cs))

example : enchantmentEntries "sharpness v, unbreaking" = ["sharpness v", "unbreaking"] := by
  decide

/-- The host collaborators of `parseEnchantments`: the enchantment type
registry (`EnchantmentTypes.get`) and the compatibility predicate
(`canAddEnchantment` of the enchantable component of the item). -/
structure EnchHost where
  registry : String → Option EnchantmentType
  canAdd : ItemStack → Enchantment → Bool

/-- `const level = levelStr ? romanToNumber(levelStr) : 1` from
`parseEnchantments`. -/
def entryLevel : Option String → JInt
  | some levelStr => romanToNumber levelStr
  | none => .int 1

/-- The validation of one entry inside the loop of `parseEnchantments`:
regex match, level decode (defaulting to 1), name normalization, registry
lookup, maximum check (JS `>` on a possibly-NaN level), compatibility
check. -/
def validateEntry (env : EnchHost) (item : ItemStack) (entry : String) :
    Except String Enchantment :=
  match matchEntry entry with
  | none => .error ("Invalid format: " ++ entry)
  | some (name, levelStrOpt) =>
    match env.registry (formatName name) with
    | none => .error ("Invalid enchantment identifier: " ++ name)
    | some ty =>
      if jgtInt (entryLevel levelStrOpt) ty.maxLevel then
        .error ("The enchantment level for " ++ name ++ " is too high. Maximum allowed is "
          ++ convertToRomanNumerals (.int ty.maxLevel) ++ ".")
      else if !(env.canAdd item ⟨ty, entryLevel levelStrOpt⟩) then
        .error ("The " ++ name ++ " enchantment is not compatible with " ++ item.typeId ++ ".")
      else .ok ⟨ty, entryLevel levelStrOpt⟩

/-- The fail-fast entry loop of `parseEnchantments`: the first failing entry
aborts with its error, otherwise the validated descriptors accumulate in
input order. -/
def parseEntriesLoop (env : EnchHost) (item : ItemStack) :
    List String → Except String (List Enchantment)
  | [] => .ok []
  | e :: es =>
    match validateEntry env item e with
    | .error msg => .error msg
    | .ok d =>
      match parseEntriesLoop env item es with
      | .ok l => .ok (d :: l)
      | .error msg => .error msg

/-- `parseEnchantments` from utils.ts: an item without an enchantable
component is rejected up front, otherwise the entries are validated in
order, fail-fast. -/
def parseEnchantments (env : EnchHost) (item : ItemStack) (enchantmentsStr : String) :
    Except String (List Enchantment) :=
  match item.enchantable with
  | none => .error "This item cannot be enchanted."
  | some _ => parseEntriesLoop env item (enchantmentEntries enchantmentsStr)

/-- A concrete registry entry used by the concrete theorems. -/
def sharpnessType : EnchantmentType := ⟨"minecraft:sharpness", 5⟩

/-- A concrete host for the enchantment parser: only `sharpness` (maximum
level 5) is registered, and every enchantment is compatible. -/
def enchHostC : EnchHost :=
  ⟨fun s => if s = "sharpness" then some sharpnessType else none, fun _ _ => true⟩

/-- A concrete enchantable item. -/
def enchItemC : ItemStack := { loreItemA with enchantable := some [] }

example : parseEnchantments enchHostC enchItemC "sharpness" = .ok [⟨sharpnessType, .int 1⟩] := by
  rfl
example : parseEnchantments enchHostC enchItemC "sharpness VI"
    = .error "The enchantment level for sharpness is too high. Maximum allowed is V." := by
  rfl
example : parseEnchantments enchHostC enchItemC "unbreaking"
    = .error "Invalid enchantment identifier: unbreaking" := by rfl
example : parseEnchantments enchHostC { loreItemA with enchantable := none } "sharpness"
    = .error "This item cannot be enchanted." := by rfl

/-- The seven Roman symbol values. -/
def romanValues : List Int := [1, 5, 10, 50, 100, 500, 1000]

theorem romanCharValue_mem (c : Char) (v : Int) (h : romanCharValue c = some v) :
    v ∈ romanValues := by
  unfold romanCharValue at h
  split_ifs at h <;> simp_all [romanValues]

theorem romanValues_pos : ∀ v ∈ romanValues, 1 ≤ v := by decide

/-- Any two distinct Roman symbol values differ by at least a factor of
two; this is what makes the subtractive decode stay positive. -/
theorem romanValues_pair : ∀ v ∈ romanValues, ∀ p ∈ romanValues, v < p → 2 * v ≤ p := by
  decide

/-- Once the running total is NaN it stays NaN. -/
theorem roman_fold_nan :
    ∀ (cs : List Char) (acc : JInt × JInt), acc.1 = .nan →
      (List.foldl romanStep acc cs).1 = .nan := by
  intro cs
  induction cs with
  | nil => intro acc h; exact h
  | cons c cs ih =>
    rintro ⟨a1, a2⟩ h
    replace h : a1 = .nan := h
    subst h
    rw [List.foldl_cons]
    apply ih
    cases hv : romanCharValue c <;> cases a2 <;>
      (simp only [romanStep, hv]; split <;> simp [jsub, jadd])

/-- A symbol outside the Roman table drives the running total to NaN. -/
theorem roman_fold_invalid :
    ∀ (cs : List Char) (acc : JInt × JInt),
      (∃ c ∈ cs, romanCharValue c = none) →
      (List.foldl romanStep acc cs).1 = .nan := by
  intro cs
  induction cs with
  | nil => rintro acc ⟨c, hc, -⟩; exact absurd hc (List.not_mem_nil c)
  | cons c cs ih =>
    rintro acc ⟨d, hd, hval⟩
    rcases List.mem_cons.mp hd with rfl | hd2
    · rw [List.foldl_cons]
      apply roman_fold_nan
      obtain ⟨a1, a2⟩ := acc
      cases a1 <;> cases a2 <;>
        (simp only [romanStep, hval]; split <;> simp [jsub, jadd])
    · rw [List.foldl_cons]
      exact ih _ ⟨d, hd2, hval⟩

/-- The decode invariant: starting from a total at least the previous value
(both nonnegative, the previous value zero or a Roman symbol value), the
loop keeps the total at least the new previous value, and after at least one
symbol the previous value is a Roman symbol value. -/
theorem roman_fold_pos :
    ∀ (cs : List Char) (n p : Int),
      (∀ c ∈ cs, (romanCharValue c).isSome) → 0 ≤ p → p ≤ n →
      (p = 0 ∨ p ∈ romanValues) →
      ∃ n2 p2 : Int, List.foldl romanStep (.int n, .int p) cs = (.int n2, .int p2)
        ∧ 0 ≤ p2 ∧ p2 ≤ n2 ∧ ((cs = [] ∧ n2 = n ∧ p2 = p) ∨ p2 ∈ romanValues) := by
  intro cs
  induction cs with
  | nil =>
    intro n p _ h0 h1 _
    exact ⟨n, p, rfl, h0, h1, Or.inl ⟨rfl, rfl, rfl⟩⟩
  | cons c cs ih =>
    intro n p hval h0 h1 h2
    obtain ⟨v, hv⟩ := Option.isSome_iff_exists.mp (hval c (by simp))
    have hvmem : v ∈ romanValues := romanCharValue_mem c v hv
    have hv1 : 1 ≤ v := romanValues_pos v hvmem
    have hstep : romanStep (.int n, .int p) c
        = if v < p then (.int (n - v), .int v) else (.int (n + v), .int v) := by
      unfold romanStep
      rw [hv]
      by_cases hlt : v < p <;> simp [jlt, jsub, jadd, hlt]
    have hvalcs : ∀ d ∈ cs, (romanCharValue d).isSome :=
      fun d hd => hval d (List.mem_cons_of_mem c hd)
    rw [List.foldl_cons, hstep]
    by_cases hlt : v < p
    · have hpmem : p ∈ romanValues := by
        rcases h2 with h2 | h2
        · omega
        · exact h2
      have hle : 2 * v ≤ p := romanValues_pair v hvmem p hpmem hlt
      rw [if_pos hlt]
      obtain ⟨n2, p2, heq, a2, b2, c2⟩ :=
        ih (n - v) v hvalcs (by omega) (by omega) (Or.inr hvmem)
      refine ⟨n2, p2, heq, a2, b2, Or.inr ?_⟩
      rcases c2 with ⟨-, -, hp2⟩ | h
      · rw [hp2]; exact hvmem
      · exact h
    · rw [if_neg hlt]
      obtain ⟨n2, p2, heq, a2, b2, c2⟩ :=
        ih (n + v) v hvalcs (by omega) (by omega) (Or.inr hvmem)
      refine ⟨n2, p2, heq, a2, b2, Or.inr ?_⟩
      rcases c2 with ⟨-, -, hp2⟩ | h
      · rw [hp2]; exact hvmem
      · exact h

/-- The decode of a nonempty all-Roman string is an integer of at least
one. -/
theorem romanToNumber_pos (s : String) (hne : s.data ≠ [])
    (hval : ∀ c ∈ s.data, (romanCharValue c).isSome) :
    ∃ k : Int, romanToNumber s = .int k ∧ 1 ≤ k := by
  have hval2 : ∀ c ∈ s.data.reverse, (romanCharValue c).isSome := by
    intro c hc
    exact hval c (List.mem_reverse.mp hc)
  obtain ⟨n2, p2, heq, h0, h1, hd⟩ :=
    roman_fold_pos s.data.reverse 0 0 hval2 le_rfl le_rfl (Or.inl rfl)
  refine ⟨n2, ?_, ?_⟩
  · unfold romanToNumber
    rw [heq]
  · rcases hd with ⟨hnil, -, -⟩ | hmem
    · exact absurd (List.reverse_eq_nil_iff.mp hnil) hne
    · have := romanValues_pos p2 hmem
      omega

/-- If the decode produced an integer, every character was a Roman
symbol. -/
theorem romanToNumber_int_valid (s : String) (k : Int) (h : romanToNumber s = .int k) :
    ∀ c ∈ s.data, (romanCharValue c).isSome := by
  intro c hc
  by_contra hnone
  have hcn : romanCharValue c = none := Option.not_isSome_iff_eq_none.mp hnone
  have hnan : (List.foldl romanStep (.int 0, .int 0) s.data.reverse).1 = JInt.nan :=
    roman_fold_invalid _ _ ⟨c, List.mem_reverse.mpr hc, hcn⟩
  unfold romanToNumber at h
  rw [hnan] at h
  exact JInt.noConfusion h

/-- A matched level text is never empty. -/
theorem tailMatch_some_some (rest w : List Char) (h : tailMatch rest = some (some w)) :
    w ≠ [] := by
  cases rest with
  | nil => simp [tailMatch] at h
  | cons c cs =>
    simp only [tailMatch] at h
    split_ifs at h with h1 h2 h3
    injection h with h4
    injection h4 with h5
    intro hw
    apply h2
    rw [h5, hw]
    rfl

/-- The level component produced by the regex loop is never empty. -/
theorem matchGo_level_ne_nil :
    ∀ (rest nameRev name w : List Char),
      matchGo nameRev rest = some (name, some w) → w ≠ [] := by
  intro rest
  induction rest with
  | nil =>
    intro nameRev name w h
    unfold matchGo at h
    split at h
    · exact Option.noConfusion h
    · injection h with h4
      injection h4 with h5 h6
      exact Option.noConfusion h6
  | cons c cs ih =>
    intro nameRev name w h
    unfold matchGo at h
    split at h
    case h_1 lvl heq =>
      split at h
      · split at h
        · exact ih _ _ _ h
        · exact Option.noConfusion h
      · have hl : lvl = some w := by
          injection h with h2
          injection h2 with h3 h4
        subst hl
        exact tailMatch_some_some _ w heq
    case h_2 heq =>
      split at h
      · exact ih _ _ _ h
      · exact Option.noConfusion h

/-- A matched entry with level text has a nonempty level string. -/
theorem matchEntry_level_ne_nil (entry : String) (name ls : String)
    (h : matchEntry entry = some (name, some ls)) : ls.data ≠ [] := by
  unfold matchEntry at h
  split at h
  case h_1 nm lvl heq =>
    injection h with h2
    injection h2 with h3 h4
    cases lvl with
    | none => exact Option.noConfusion h4
    | some w =>
      have hw : w ≠ [] := matchGo_level_ne_nil _ _ _ _ heq
      have : String.mk w = ls := by
        injection h4
      rw [← this]
      simpa using hw
  case h_2 => exact Option.noConfusion h

/-- Any descriptor accepted by the per-entry validation has a level that is
either NaN or an integer between 1 and the declared maximum of its type. -/
theorem validateEntry_level (env : EnchHost) (item : ItemStack) (entry : String)
    (e : Enchantment) (h : validateEntry env item entry = .ok e) :
    e.level = .nan ∨ ∃ k : Int, e.level = .int k ∧ 1 ≤ k ∧ k ≤ e.type.maxLevel := by
  unfold validateEntry at h
  split at h
  case h_1 => exact Except.noConfusion h
  case h_2 name levelStrOpt heq =>
    split at h
    case h_1 => exact Except.noConfusion h
    case h_2 ty hreg =>
      split_ifs at h with hmax hadd
      have he : e = ⟨ty, entryLevel levelStrOpt⟩ := by
        injection h with h2
        exact h2.symm
      subst he
      cases levelStrOpt with
      | none =>
        right
        refine ⟨1, rfl, le_refl 1, ?_⟩
        show (1 : Int) ≤ ty.maxLevel
        simp only [entryLevel, jgtInt, decide_eq_true_eq] at hmax
        omega
      | some levelStr =>
        cases hr : romanToNumber levelStr with
        | nan => left; simp [entryLevel, hr]
        | int k =>
          right
          refine ⟨k, by simp [entryLevel, hr], ?_, ?_⟩
          · have hne : levelStr.data ≠ [] := matchEntry_level_ne_nil entry name levelStr heq
            obtain ⟨k2, hk2, hk2pos⟩ :=
              romanToNumber_pos levelStr hne (romanToNumber_int_valid levelStr k hr)
            rw [hr] at hk2
            injection hk2 with hkk
            omega
          · show k ≤ ty.maxLevel
            simp only [entryLevel, hr, jgtInt, decide_eq_true_eq] at hmax
            omega

/-- Every descriptor in an accepted list comes from a successfully validated
entry of the input list. -/
theorem parseEntriesLoop_ok_mem (env : EnchHost) (item : ItemStack) :
    ∀ (es : List String) (l : List Enchantment),
      parseEntriesLoop env item es = .ok l →
      ∀ d ∈ l, ∃ ent ∈ es, validateEntry env item ent = .ok d := by
  intro es
  induction es with
  | nil =>
    intro l h d hd
    injection h with h2
    rw [← h2] at hd
    exact absurd hd (List.not_mem_nil d)
  | cons e es ih =>
    intro l h d hd
    unfold parseEntriesLoop at h
    split at h
    case h_1 => exact Except.noConfusion h
    case h_2 d0 hv =>
      split at h
      case h_1 l0 hloop =>
        injection h with h2
        rw [← h2] at hd
        rcases List.mem_cons.mp hd with rfl | hd2
        · exact ⟨e, List.mem_cons_self e es, hv⟩
        · obtain ⟨ent, hent, hval⟩ := ih l0 hloop d hd2
          exact ⟨ent, List.mem_cons_of_mem e hent, hval⟩
      case h_2 => exact Except.noConfusion h

/-- The loop either validates every entry in order, or stops at the first
failing entry and returns exactly its error. -/
theorem parseEntriesLoop_spec (env : EnchHost) (item : ItemStack) :
    ∀ es : List String,
      (∃ l, parseEntriesLoop env item es = .ok l ∧ l.length = es.length ∧
        ∀ (i : Nat) (ent : String), es[i]? = some ent →
          ∃ d, validateEntry env item ent = .ok d ∧ l[i]? = some d)
      ∨ (∃ (msg : String) (i : Nat) (ent : String), parseEntriesLoop env item es = .error msg ∧
          es[i]? = some ent ∧ validateEntry env item ent = .error msg ∧
          ∀ (j : Nat) (entj : String), j < i → es[j]? = some entj →
            ∃ d, validateEntry env item entj = .ok d) := by
  intro es
  induction es with
  | nil =>
    left
    refine ⟨[], rfl, rfl, ?_⟩
    intro i ent h
    simp at h
  | cons e es ih =>
    cases hv : validateEntry env item e with
    | error msg =>
      right
      refine ⟨msg, 0, e, ?_, by simp, hv, ?_⟩
      · unfold parseEntriesLoop
        rw [hv]
      · intro j entj hj _
        omega
    | ok d =>
      rcases ih with ⟨l, hloop, hlen, hidx⟩ | ⟨msg, i, ent, hloop, hent, hval, hpre⟩
      · left
        refine ⟨d :: l, ?_, by simp [hlen], ?_⟩
        · unfold parseEntriesLoop
          rw [hv, hloop]
        · intro i ent h
          cases i with
          | zero =>
            simp only [List.getElem?_cons_zero, Option.some.injEq] at h
            subst h
            exact ⟨d, hv, by simp⟩
          | succ n =>
            simp only [List.getElem?_cons_succ] at h
            obtain ⟨d2, hval2, hl2⟩ := hidx n ent h
            exact ⟨d2, hval2, by simpa using hl2⟩
      · right
        refine ⟨msg, i + 1, ent, ?_, by simpa using hent, hval, ?_⟩
        · unfold parseEntriesLoop
          rw [hv, hloop]
        · intro j entj hj hjent
          cases j with
          | zero =>
            simp only [List.getElem?_cons_zero, Option.some.injEq] at hjent
            subst hjent
            exact ⟨d, hv⟩
          | succ n =>
            simp only [List.getElem?_cons_succ] at hjent
            exact hpre n entj (by omega) hjent

/-- C6: for every host, target item and input string, `parseEnchantments`
either rejects an unenchantable item up front, or returns one validated
descriptor per comma-separated entry in input order, or returns the error of
the first failing entry with every earlier entry validating — never both a
list and an error, and never a partial list (the return type is a sum). -/
theorem parseEnchantments_fail_fast (env : EnchHost) (item : ItemStack) (s : String) :
    (item.enchantable = none
      ∧ parseEnchantments env item s = .error "This item cannot be enchanted.")
    ∨ (∃ l, parseEnchantments env item s = .ok l
        ∧ l.length = (enchantmentEntries s).length
        ∧ ∀ (i : Nat) (ent : String), (enchantmentEntries s)[i]? = some ent →
            ∃ d, validateEntry env item ent = .ok d ∧ l[i]? = some d)
    ∨ (∃ (msg : String) (i : Nat) (ent : String), parseEnchantments env item s = .error msg
        ∧ (enchantmentEntries s)[i]? = some ent
        ∧ validateEntry env item ent = .error msg
        ∧ ∀ (j : Nat) (entj : String), j < i → (enchantmentEntries s)[j]? = some entj →
            ∃ d, validateEntry env item entj = .ok d) := by
  cases he : item.enchantable with
  | none =>
    left
    refine ⟨rfl, ?_⟩
    unfold parseEnchantments
    rw [he]
  | some l0 =>
    have hp : parseEnchantments env item s = parseEntriesLoop env item (enchantmentEntries s) := by
      unfold parseEnchantments
      rw [he]
    rcases parseEntriesLoop_spec env item (enchantmentEntries s) with h | h
    · right; left
      rw [hp]
      exact h
    · right; right
      rw [hp]
      exact h

/-- Witness for C6: the contract instantiated at a concrete host, item and
input. -/
theorem parseEnchantments_fail_fast_witness :
    (enchItemC.enchantable = none
      ∧ parseEnchantments enchHostC enchItemC "sharpness" = .error "This item cannot be enchanted.")
    ∨ (∃ l, parseEnchantments enchHostC enchItemC "sharpness" = .ok l
        ∧ l.length = (enchantmentEntries "sharpness").length
        ∧ ∀ (i : Nat) (ent : String), (enchantmentEntries "sharpness")[i]? = some ent →
            ∃ d, validateEntry enchHostC enchItemC ent = .ok d ∧ l[i]? = some d)
    ∨ (∃ (msg : String) (i : Nat) (ent : String), parseEnchantments enchHostC enchItemC "sharpness" = .error msg
        ∧ (enchantmentEntries "sharpness")[i]? = some ent
        ∧ validateEntry enchHostC enchItemC ent = .error msg
        ∧ ∀ (j : Nat) (entj : String), j < i → (enchantmentEntries "sharpness")[j]? = some entj →
            ∃ d, validateEntry enchHostC enchItemC entj = .ok d) :=
  parseEnchantments_fail_fast enchHostC enchItemC "sharpness"

/-- The level property the spec asserts for every returned descriptor,
stated from the spec words for comparison with what the code produces: an
integer level within the declared range of the type. -/
def levelInDeclaredRange (e : Enchantment) : Prop :=
  ∃ k : Int, e.level = .int k ∧ 1 ≤ k ∧ k ≤ e.type.maxLevel

/-- C3 counterexample: the entry `sharpness v` carries the level text `v`,
whose characters are not in the (uppercase) Roman table; the decode yields
NaN, the maximum check `NaN > 5` is false, and `parseEnchantments` returns a
descriptor whose level is NaN — not an integer in the declared range. -/
theorem parseEnchantments_nan_level_counterexample :
    parseEnchantments enchHostC enchItemC "sharpness v"
      = .ok [⟨sharpnessType, .nan⟩]
    ∧ ¬ levelInDeclaredRange ⟨sharpnessType, .nan⟩ := by
  refine ⟨by rfl, ?_⟩
  rintro ⟨k, hk, -⟩
  exact JInt.noConfusion hk

/-- C3 (amended): a descriptor in a successfully returned list has a level
that is either NaN (from level text containing non-Roman characters, which
the maximum check does not reject) or an integer in the interval from 1 to
the declared maximum of its type; an entry with no level text yields level
1; and an entry whose decoded integer level exceeds the declared maximum is
rejected with the too-high error instead of being returned. -/
theorem parseEnchantments_level_policy :
    (∀ (env : EnchHost) (item : ItemStack) (s : String) (l : List Enchantment),
      parseEnchantments env item s = .ok l →
      ∀ e ∈ l, e.level = .nan ∨ ∃ k : Int, e.level = .int k ∧ 1 ≤ k ∧ k ≤ e.type.maxLevel)
    ∧ (∀ (env : EnchHost) (item : ItemStack) (entry name : String) (e : Enchantment),
        matchEntry entry = some (name, none) →
        validateEntry env item entry = .ok e → e.level = .int 1)
    ∧ (∀ (env : EnchHost) (item : ItemStack) (entry name ls : String) (k : Int)
        (ty : EnchantmentType),
        matchEntry entry = some (name, some ls) →
        romanToNumber ls = .int k →
        env.registry (formatName name) = some ty →
        ty.maxLevel < k →
        validateEntry env item entry
          = .error ("The enchantment level for " ++ name ++ " is too high. Maximum allowed is "
            ++ convertToRomanNumerals (.int ty.maxLevel) ++ ".")) := by
  refine ⟨?_, ?_, ?_⟩
  · intro env item s l hp e hel
    unfold parseEnchantments at hp
    split at hp
    · exact Except.noConfusion hp
    · obtain ⟨ent, -, hval⟩ := parseEntriesLoop_ok_mem env item _ l hp e hel
      exact validateEntry_level env item ent e hval
  · intro env item entry name e hm hok
    unfold validateEntry at hok
    split at hok
    case h_1 heq =>
      rw [hm] at heq
      exact Option.noConfusion heq
    case h_2 name2 lvl2 heq =>
      rw [hm] at heq
      injection heq with heq2
      injection heq2 with hn hl
      subst hn
      subst hl
      split at hok
      case h_1 => exact Except.noConfusion hok
      case h_2 ty hreg =>
        split_ifs at hok with hmax hadd
        injection hok with h2
        rw [← h2]
        rfl
  · intro env item entry name ls k ty hm hr hreg hklt
    unfold validateEntry
    split
    case h_1 heq =>
      rw [hm] at heq
      exact Option.noConfusion heq
    case h_2 name2 lvl2 heq =>
      rw [hm] at heq
      injection heq with heq2
      injection heq2 with hn hl
      subst hn
      subst hl
      rw [hreg]
      simp [entryLevel, hr, jgtInt, hklt]

/-- Witness for C3 (amended): the first conjunct applied at a concrete
accepted parse. -/
theorem parseEnchantments_level_policy_witness :
    (⟨sharpnessType, JInt.int 1⟩ : Enchantment).level = JInt.nan
    ∨ ∃ k : Int, (⟨sharpnessType, JInt.int 1⟩ : Enchantment).level = .int k
        ∧ 1 ≤ k ∧ k ≤ (⟨sharpnessType, JInt.int 1⟩ : Enchantment).type.maxLevel :=
  parseEnchantments_level_policy.1 enchHostC enchItemC "sharpness" [⟨sharpnessType, .int 1⟩]
    (by rfl) ⟨sharpnessType, .int 1⟩ (List.mem_singleton.mpr rfl)

/-- `FormFieldManager.addField`: push the name and return the new length
minus one.  The manager state is its field list. -/
def addField (fields : List String) (name : String) : List String × Int :=
  (fields ++ [name], ((fields ++ [name]).length : Int) - 1)

/-- JS `Array.prototype.indexOf` running total: the index of the first
occurrence counted from `i`, or the sentinel -1. -/
def jsIndexOfAux (name : String) : List String → Int → Int
  | [], _ => -1
  | f :: fs, i => if f = name then i else jsIndexOfAux name fs (i + 1)

/-- `FormFieldManager.getFieldIndex`: `fields.indexOf(name)`. -/
def getFieldIndex (fields : List String) (name : String) : Int :=
  jsIndexOfAux name fields 0

/-- `FormFieldManager.getValue`: the response value at the index of the
name, when the response has values, the name is registered and the index is
within the values; the caller default otherwise.  The branch access
`formValues[index]` is in bounds by the guard, so the `getD` fallback is
never taken inside the branch. -/
def getValue {α : Type} (formValues : Option (List α)) (fields : List String)
    (name : String) (defaultValue : α) : α :=
  let index := getFieldIndex fields name
  match formValues with
  | some vals =>
    if index ≠ -1 ∧ index < (vals.length : Int) then vals.getD index.toNat defaultValue
    else defaultValue
  | none => defaultValue

theorem jsIndexOfAux_not_mem (name : String) :
    ∀ (fields : List String) (i : Int), name ∉ fields → jsIndexOfAux name fields i = -1 := by
  intro fields
  induction fields with
  | nil => intro i _; rfl
  | cons f fs ih =>
    intro i h
    have hf : ¬(f = name) := fun he => h (by rw [he]; exact List.mem_cons_self name fs)
    simp only [jsIndexOfAux, if_neg hf]
    exact ih (i + 1) (fun hm => h (List.mem_cons_of_mem f hm))

theorem jsIndexOfAux_first (name : String) :
    ∀ (pre : List String) (post : List String) (i : Int), name ∉ pre →
      jsIndexOfAux name (pre ++ name :: post) i = i + (pre.length : Int) := by
  intro pre
  induction pre with
  | nil =>
    intro post i _
    simp [jsIndexOfAux]
  | cons p pre ih =>
    intro post i h
    have hp : ¬(p = name) := fun he => h (by rw [he]; exact List.mem_cons_self name pre)
    simp only [List.cons_append, jsIndexOfAux, if_neg hp]
    rw [show pre.append (name :: post) = pre ++ name :: post from rfl]
    rw [ih post (i + 1) (fun hm => h (List.mem_cons_of_mem p hm))]
    simp only [List.length_cons]
    push_cast
    ring

/-- C9: the form field registry assigns sequential indices starting at zero
in registration order (registering into a list of k fields returns index k);
`getFieldIndex` returns the index assigned at first registration for a
registered name and the sentinel -1 for an unregistered one; and `getValue`
returns the response value at the index of the name when everything is
present and in range, and the caller default — never throwing, as it is a
total function — when the name was never registered, the response carries no
values, or the index is not within the values. -/
theorem formFieldManager_contract :
    (∀ (fields : List String) (name : String),
      (addField fields name).2 = (fields.length : Int))
    ∧ (∀ (pre post : List String) (name : String), name ∉ pre →
        getFieldIndex (pre ++ name :: post) name = (pre.length : Int))
    ∧ (∀ (fields : List String) (name : String), name ∉ fields →
        getFieldIndex fields name = -1)
    ∧ (∀ (α : Type) (resp : Option (List α)) (fields : List String) (name : String) (d : α),
        name ∉ fields → getValue resp fields name d = d)
    ∧ (∀ (α : Type) (fields : List String) (name : String) (d : α),
        getValue (α := α) none fields name d = d)
    ∧ (∀ (α : Type) (vals : List α) (fields : List String) (name : String) (d : α),
        (vals.length : Int) ≤ getFieldIndex fields name →
        getValue (some vals) fields name d = d)
    ∧ (∀ (α : Type) (vals : List α) (pre post : List String) (name : String) (d v : α),
        name ∉ pre → vals[pre.length]? = some v →
        getValue (some vals) (pre ++ name :: post) name d = v) := by
  refine ⟨?_, ?_, ?_, ?_, ?_, ?_, ?_⟩
  · intro fields name
    simp [addField]
  · intro pre post name h
    unfold getFieldIndex
    rw [jsIndexOfAux_first name pre post 0 h]
    ring
  · intro fields name h
    exact jsIndexOfAux_not_mem name fields 0 h
  · intro α resp fields name d h
    have hidx : getFieldIndex fields name = -1 := jsIndexOfAux_not_mem name fields 0 h
    cases resp with
    | none => rfl
    | some vals => simp [getValue, hidx]
  · intro α fields name d
    rfl
  · intro α vals fields name d h
    have : ¬(getFieldIndex fields name ≠ -1 ∧ getFieldIndex fields name < (vals.length : Int)) := by
      rintro ⟨-, hlt⟩
      omega
    simp only [getValue, if_neg this]
  · intro α vals pre post name d v hpre hv
    have hidx : getFieldIndex (pre ++ name :: post) name = (pre.length : Int) := by
      unfold getFieldIndex
      rw [jsIndexOfAux_first name pre post 0 hpre]
      ring
    have hlt : pre.length < vals.length := by
      by_contra hge
      rw [List.getElem?_eq_none (by omega)] at hv
      exact Option.noConfusion hv
    simp only [getValue, hidx]
    rw [if_pos ⟨by omega, by exact_mod_cast hlt⟩]
    rw [show ((pre.length : Int)).toNat = pre.length from rfl]
    rw [List.getD_eq_getElem?_getD, hv]
    rfl

/-- Witness for C9 at a concrete registry with fields a then b, an
unregistered name c, and a concrete response. -/
theorem formFieldManager_contract_witness :
    (addField ["a"] "b").2 = ((["a"] : List String).length : Int)
    ∧ getFieldIndex (["a"] ++ "b" :: []) "b" = ((["a"] : List String).length : Int)
    ∧ getValue (α := Nat) (some [5, 7]) ["a", "b"] "c" 9 = 9 :=
  ⟨formFieldManager_contract.1 ["a"] "b",
   formFieldManager_contract.2.1 ["a"] [] "b" (by decide),
   formFieldManager_contract.2.2.2.1 Nat (some [5, 7]) ["a", "b"] "c" 9 (by decide)⟩

end ItemEditor
